import Mathlib

/-!
Verification development for the tvb-library delayed-coupling integration
engine.  The definitions below are shallow embeddings of the relevant parts
of `tvb/simulator/noise.py`, `tvb/simulator/common.py`,
`tvb/datatypes/connectivity.py`, `tvb/datatypes/equations.py` and the exact
propagation scenario of `tvb/tests/library/simulator/history_test.py`.
Machine floats are modelled as exact rationals or reals; external library
functions (numpy's `sqrt`, `exp`, and its seeded pseudo-random stream) are
taken as abstract function parameters where their numerical value is not
what a claim is about.
-/

namespace TVB

/-! ## Delay history ring buffer -/

/-- Modelled from the spec: the simulator's delay-history class
(`tvb/simulator/simulator.py`, not present under `src/`) is specified in
§4.1/§3 of the spec and sketched by `Buffer` in `tvb/simulator/common.py`,
whose indexing is `raw[(idx + step) % horizon]`.  A buffer is a horizon
together with the raw slot array (slots `0 .. horizon-1` are meaningful). -/
structure DelayBuffer (α : Type) where
  horizon : ℕ
  raw : ℕ → α

/-- Modelled from the spec: `update(step, state)` writes the current state
into slot `step mod horizon` (spec §4.1). -/
def DelayBuffer.update {α : Type} (b : DelayBuffer α) (step : ℕ) (x : α) :
    DelayBuffer α :=
  { b with raw := fun j => if j = step % b.horizon then x else b.raw j }

/-- Modelled from the spec: `query(step)` reads, for an edge of delay `d`,
the slot `(step - d) mod horizon` (spec §4.1 and the `Buffer` indexing in
`tvb/simulator/common.py`). -/
def DelayBuffer.query {α : Type} (b : DelayBuffer α) (step d : ℕ) : α :=
  b.raw ((step - d) % b.horizon)

/-- Run the per-step writes of the step loop: after `runUpdates b0 xs t`,
`update` has been called once for every step `0, 1, ..., t`, writing the
state `xs s` at step `s`. -/
def runUpdates {α : Type} (b0 : DelayBuffer α) (xs : ℕ → α) : ℕ → DelayBuffer α
  | 0 => b0.update 0 (xs 0)
  | t + 1 => (runUpdates b0 xs t).update (t + 1) (xs (t + 1))

theorem update_horizon {α : Type} (b : DelayBuffer α) (step : ℕ) (x : α) :
    (b.update step x).horizon = b.horizon := rfl

theorem runUpdates_horizon {α : Type} (b0 : DelayBuffer α) (xs : ℕ → α) :
    ∀ t, (runUpdates b0 xs t).horizon = b0.horizon := by
  intro t
  induction t with
  | zero => rfl
  | succ t ih => simpa [runUpdates, DelayBuffer.update] using ih

theorem mod_slot_ne {H m d : ℕ} (h0 : 0 < d) (hdH : d < H) (hdm : d ≤ m) :
    (m - d) % H ≠ m % H := by
  intro h
  have h2 : m - d ≡ m [MOD H] := h
  have h3 : H ∣ m - (m - d) := (Nat.modEq_iff_dvd' (Nat.sub_le m d)).mp h2
  rw [Nat.sub_sub_self hdm] at h3
  exact absurd (Nat.le_of_dvd h0 h3) (not_le.mpr hdH)

theorem runUpdates_query {α : Type} (b0 : DelayBuffer α) (xs : ℕ → α) :
    ∀ t d, 0 < b0.horizon → d < b0.horizon → d ≤ t →
      (runUpdates b0 xs t).query t d = xs (t - d) := by
  intro t
  induction t with
  | zero =>
    intro d _ _ hd0
    have hd : d = 0 := Nat.le_antisymm hd0 (Nat.zero_le d)
    subst hd
    simp [runUpdates, DelayBuffer.update, DelayBuffer.query]
  | succ t ih =>
    intro d hH hdH hdt
    have hhor : (runUpdates b0 xs t).horizon = b0.horizon := runUpdates_horizon b0 xs t
    cases d with
    | zero =>
      simp [runUpdates, DelayBuffer.update, DelayBuffer.query, hhor]
    | succ e =>
      have hne : (t + 1 - (e + 1)) % b0.horizon ≠ (t + 1) % b0.horizon :=
        mod_slot_ne (Nat.succ_pos e) hdH hdt
      have hrw : t + 1 - (e + 1) = t - e := by omega
      have heH : e < b0.horizon := Nat.lt_of_succ_lt hdH
      have het : e ≤ t := Nat.lt_succ_iff.mp hdt
      have := ih e hH heH het
      simp only [runUpdates, DelayBuffer.update, DelayBuffer.query, hhor] at *
      rw [if_neg hne, hrw]
      simpa [DelayBuffer.query, hhor] using this

/-- C5: for every step `t ≥ horizon` and every edge delay `d` in
`[0, horizon-1]`, querying the history at step `t` with delay `d` returns
exactly the value that `update` wrote at step `t - d`; in particular
(`d = 0`) the slot `t mod horizon` holds the state written at step `t`,
and no later write of the run overwrote a slot still referenced by a
delay below the horizon. -/
theorem claim_C5_query_returns_delayed_write {α : Type} (b0 : DelayBuffer α)
    (xs : ℕ → α) (t d : ℕ) (hH : 0 < b0.horizon) (hd : d < b0.horizon)
    (ht : b0.horizon ≤ t) :
    (runUpdates b0 xs t).query t d = xs (t - d) :=
  runUpdates_query b0 xs t d hH hd (le_trans (le_of_lt hd) ht)

/-- Witness for C5: a buffer of horizon 4 run for 6 steps, queried at delay 2,
returns the state written 2 steps earlier. -/
theorem claim_C5_query_returns_delayed_write_witness :
    0 < (4 : ℕ) ∧ (2 : ℕ) < 4 ∧ (4 : ℕ) ≤ 6 ∧
      (runUpdates (⟨4, fun _ => 0⟩ : DelayBuffer ℤ)
        (fun k => (k : ℤ) * (k : ℤ) + 1) 6).query 6 2 = 17 := by
  refine ⟨by decide, by decide, by decide, ?_⟩
  have h := claim_C5_query_returns_delayed_write
    (⟨4, fun _ => 0⟩ : DelayBuffer ℤ) (fun k => (k : ℤ) * (k : ℤ) + 1) 6 2
    (by decide) (by decide) (by decide)
  simpa using h

/-! ## Exact propagation scenario (history_test.py) -/

/-- Weights of the 4-node directed chain of
`ExactPropagationTests.build_simulator`: `conn[i, i+1] = 1` for
`i = 0, 1, 2`, all other entries zero.  Entry `(i, j)` weights the input
that node `i` receives from source node `j` (the coupling sums over the
source axis). -/
def chainWeights (i j : ℕ) : ℤ := if j = i + 1 ∧ j < 4 then 1 else 0

/-- Tract lengths of the test: `dist = arange(16).reshape((4, 4))`, so
`dist[i, j] = 4*i + j`. -/
def chainTract (i j : ℕ) : ℕ := 4 * i + j

/-- Per-edge delays in steps: `round(tract_length / speed / dt)` with
`speed = 1` and `dt = 1`, hence equal to the tract lengths themselves. -/
def chainIdelay (i j : ℕ) : ℕ := chainTract i j

/-- Read node `i` of the state stored at history index `m` (the history is
kept as a list of per-node state rows, oldest first). -/
def histGet (h : List (List ℤ)) (m i : ℕ) : ℤ := (h.getD m []).getD i 0

/-- Modelled from the spec: the identity coupling of the test
(`IdCoupling.__call__`, whose `Coupling` base lives in
`tvb/simulator/coupling.py`, not present under `src/`): node `i` receives
`sum_j g_ij * x_j(t - delay_ij)`, summed over the source axis (spec §4.2
and `history_test.py`). -/
def chainCoupling (d : ℕ → ℕ → ℕ) (h : List (List ℤ)) (k i : ℕ) : ℤ :=
  ((List.range 4).map (fun j => chainWeights i j * histGet h (k - d i j) j)).sum

/-- Modelled from the spec: one iteration of the step loop (spec §4.5,
`tvb/simulator/simulator.py` not present under `src/`) with the `Sum`
model `dfun(x, c, l) = x + c + l`, zero local coupling, and the Identity
integrator `state_{t+1} = dfun(state_t, coupling_t)`; the new state is
appended to the history. -/
def chainStep (d : ℕ → ℕ → ℕ) (h : List (List ℤ)) : List (List ℤ) :=
  let k := h.length - 1
  h ++ [(List.range 4).map (fun i => histGet h k i + chainCoupling d h k i)]

/-- Initial history: `horizon = max(idelay) + 1 = 16` slots prefilled with
the all-ones initial conditions (`initial_conditions = ones((16, 1, 4, 1))`
in the test). -/
def chainInit : List (List ℤ) := List.replicate 16 [1, 1, 1, 1]

/-- Run the step loop for a given number of steps with per-edge delay
matrix `d`. -/
def chainRun (d : ℕ → ℕ → ℕ) : ℕ → List (List ℤ)
  | 0 => chainInit
  | t + 1 => chainStep d (chainRun d t)

/-- The flattened state snapshots emitted by the Raw monitor: one per step,
i.e. everything past the prefilled initial history. -/
def chainSnapshots (d : ℕ → ℕ → ℕ) (steps : ℕ) : List (List ℤ) :=
  (chainRun d steps).drop 16

/-- The sequence of ten flattened snapshots that the spec (§8) and the test
`ExactPropagationTests.test_propagation` expect. -/
def expectedChain : List (List ℤ) :=
  [[2, 2, 2, 1], [3, 3, 3, 1], [5, 4, 4, 1], [8, 5, 5, 1], [12, 6, 6, 1],
   [17, 7, 7, 1], [23, 8, 8, 1], [30, 10, 9, 1], [38, 13, 10, 1],
   [48, 17, 11, 1]]

/-- C1 counterexample: with zero delay on every edge — as the §8 scenario
text literally prescribes — the step loop does not produce the listed
sequence (already the second snapshot is `[4, 4, 3, 1]`, not
`[3, 3, 3, 1]`). -/
theorem claim_C1_zero_delay_refuted :
    chainSnapshots (fun _ _ => 0) 10 ≠ expectedChain := by decide

/-- C1 (amended): with the per-edge delays actually constructed by the test
— `round(tract_length / speed / dt)` for `tract_lengths[i][j] = 4*i + j`,
`speed = 1`, `dt = 1`, so the chain edges carry delays 1, 6 and 11 — the
ten successive flattened snapshots of the step loop equal exactly the
listed sequence. -/
theorem claim_C1_delayed_chain_propagation :
    chainSnapshots chainIdelay 10 = expectedChain := by decide

/-! ## Coloured noise (Noise.configure_coloured / Noise.coloured) -/

/-- State held on the `Noise` object for the coloured branch: the constants
`_E`, `_sqrt_1_E2`, `_dt_sqrt_lambda` computed by `configure_coloured`, and
the persistent `_eta` mutated by every `coloured` call.  The carrier is kept
polymorphic; the claims instantiate it at `ℝ` (where the configuration
formulas use `Real.exp` and `Real.sqrt`) or at `ℚ`. -/
structure OUState (α : Type) where
  E : α
  sqrt_1_E2 : α
  dt_sqrt_lambda : α
  eta : α

/-- One call of `Noise.coloured` with normal draw `z`:
`h = sqrt_1_E2 * z`; `eta = eta * E + h`; the returned sample is
`dt_sqrt_lambda * eta` (noise.py lines 224-228). -/
def coloured {α : Type} [Ring α] (st : OUState α) (z : α) : α × OUState α :=
  let h := st.sqrt_1_E2 * z
  let eta2 := st.eta * st.E + h
  (st.dt_sqrt_lambda * eta2, { st with eta := eta2 })

/-- State of the noise object after `n` calls of `coloured`, where call
number `n` (0-based) consumes the draw `g n`. -/
def colouredIterate {α : Type} [Ring α] (st : OUState α) (g : ℕ → α) :
    ℕ → OUState α
  | 0 => st
  | n + 1 => (coloured (colouredIterate st g n) (g n)).2

/-- Sample returned by call number `n` (0-based) of `coloured`. -/
def colouredSample {α : Type} [Ring α] (st : OUState α) (g : ℕ → α) (n : ℕ) :
    α :=
  (coloured (colouredIterate st g n) (g n)).1

/-- The recursion the spec states for coloured noise: `eta_0` is the draw
taken at configuration time, and `eta_{n+1} = eta_n * E + sqrt_1_E2 * g n`. -/
def etaRec {α : Type} [Ring α] (E s eta0 : α) (g : ℕ → α) : ℕ → α
  | 0 => eta0
  | n + 1 => etaRec E s eta0 g n * E + s * g n

theorem colouredIterate_E {α : Type} [Ring α] (st : OUState α) (g : ℕ → α) :
    ∀ n, (colouredIterate st g n).E = st.E := by
  intro n
  induction n with
  | zero => rfl
  | succ n ih => simpa [colouredIterate, coloured] using ih

theorem colouredIterate_sqrt {α : Type} [Ring α] (st : OUState α) (g : ℕ → α) :
    ∀ n, (colouredIterate st g n).sqrt_1_E2 = st.sqrt_1_E2 := by
  intro n
  induction n with
  | zero => rfl
  | succ n ih => simpa [colouredIterate, coloured] using ih

theorem colouredIterate_k {α : Type} [Ring α] (st : OUState α) (g : ℕ → α) :
    ∀ n, (colouredIterate st g n).dt_sqrt_lambda = st.dt_sqrt_lambda := by
  intro n
  induction n with
  | zero => rfl
  | succ n ih => simpa [colouredIterate, coloured] using ih

theorem colouredIterate_eta {α : Type} [Ring α] (st : OUState α) (g : ℕ → α) :
    ∀ n, (colouredIterate st g n).eta = etaRec st.E st.sqrt_1_E2 st.eta g n := by
  intro n
  induction n with
  | zero => rfl
  | succ n ih =>
    simp [colouredIterate, coloured, etaRec, ih, colouredIterate_E,
      colouredIterate_sqrt]

/-- C2: when the noise object is configured for coloured noise
(`ntau > 0`) — so that `E = exp(-dt/ntau)`, `sqrt_1_E2 = sqrt(1 - E^2)`,
`eta` is the initial configuration-time draw and
`k = dt * sqrt(1/ntau)` — the sample produced by the `n`-th subsequent
`coloured` call equals `k` times the `n`-th iterate of the recursion
`eta := eta * E + sqrt_1_E2 * draw` started from the initial `eta`. -/
theorem claim_C2_coloured_recursion (dt ntau eta0 : ℝ) (st0 : OUState ℝ)
    (g : ℕ → ℝ) (_hτ : 0 < ntau)
    (hE : st0.E = Real.exp (-(dt / ntau)))
    (hs : st0.sqrt_1_E2 = Real.sqrt (1 - st0.E ^ 2))
    (hk : st0.dt_sqrt_lambda = dt * Real.sqrt (1 / ntau))
    (he : st0.eta = eta0) (n : ℕ) :
    colouredSample st0 g n =
      (dt * Real.sqrt (1 / ntau)) *
        etaRec (Real.exp (-(dt / ntau)))
          (Real.sqrt (1 - Real.exp (-(dt / ntau)) ^ 2)) eta0 g (n + 1) := by
  have hsr : st0.sqrt_1_E2 = Real.sqrt (1 - Real.exp (-(dt / ntau)) ^ 2) := by
    rw [hs, hE]
  have : colouredSample st0 g n =
      st0.dt_sqrt_lambda * etaRec st0.E st0.sqrt_1_E2 st0.eta g (n + 1) := by
    simp [colouredSample, coloured, etaRec, colouredIterate_eta,
      colouredIterate_E, colouredIterate_sqrt, colouredIterate_k]
  rw [this, hk, he, hE, hsr]

/-- Witness for C2: with `dt = 0`, `ntau = 1` the configuration constants
are `E = exp 0 = 1`, `sqrt_1_E2 = sqrt 0 = 0`, `k = 0`, and the first
coloured sample from `eta = 5` is `k * eta_1`. -/
theorem claim_C2_coloured_recursion_witness :
    0 < (1 : ℝ) ∧
    (⟨1, 0, 0, 5⟩ : OUState ℝ).E = Real.exp (-((0 : ℝ) / 1)) ∧
    (⟨1, 0, 0, 5⟩ : OUState ℝ).sqrt_1_E2 =
      Real.sqrt (1 - (⟨1, 0, 0, 5⟩ : OUState ℝ).E ^ 2) ∧
    (⟨1, 0, 0, 5⟩ : OUState ℝ).dt_sqrt_lambda = (0 : ℝ) * Real.sqrt (1 / 1) ∧
    (⟨1, 0, 0, 5⟩ : OUState ℝ).eta = (5 : ℝ) ∧
    colouredSample (⟨1, 0, 0, 5⟩ : OUState ℝ) (fun _ => 0) 0 =
      ((0 : ℝ) * Real.sqrt (1 / 1)) *
        etaRec (Real.exp (-((0 : ℝ) / 1)))
          (Real.sqrt (1 - Real.exp (-((0 : ℝ) / 1)) ^ 2)) 5 (fun _ => 0) 1 := by
  refine ⟨by norm_num, by norm_num [Real.exp_zero], ?_, by norm_num, rfl, ?_⟩
  · show (0 : ℝ) = Real.sqrt (1 - (1 : ℝ) ^ 2)
    norm_num [Real.sqrt_zero]
  · exact claim_C2_coloured_recursion 0 1 5 ⟨1, 0, 0, 5⟩ (fun _ => 0)
      (by norm_num) (by norm_num [Real.exp_zero])
      (by show (0 : ℝ) = Real.sqrt (1 - (1 : ℝ) ^ 2); norm_num [Real.sqrt_zero])
      (by norm_num) rfl 0

/-! ## Noise.generate and the random stream -/

/-- Full state of a `Noise` object: the trait `ntau`, the integration step
`dt` set at configuration, the coloured-branch constants and persistent
`eta`, and the position of its `RandomStream` (the next index to be
consumed from the seeded stream of normal draws). -/
structure NoiseGen where
  ntau : ℚ
  dt : ℚ
  E : ℚ
  sqrt_1_E2 : ℚ
  dt_sqrt_lambda : ℚ
  eta : ℚ
  pos : ℕ

/-- One call of `Noise.coloured` on the full noise state, drawing the next
normal variate from the stream `g`. -/
def colouredGen (g : ℕ → ℚ) (st : NoiseGen) : ℚ × NoiseGen :=
  let z := g st.pos
  let h := st.sqrt_1_E2 * z
  let eta2 := st.eta * st.E + h
  (st.dt_sqrt_lambda * eta2, { st with eta := eta2, pos := st.pos + 1 })

/-- One call of `Noise.white`: `sqrt(dt) * normal(0, 1, shape)`, where `sq`
stands for numpy's square-root function (noise.py lines 230-233). -/
def whiteGen (sq : ℚ → ℚ) (g : ℕ → ℚ) (st : NoiseGen) : ℚ × NoiseGen :=
  (sq st.dt * g st.pos, { st with pos := st.pos + 1 })

/-- Default value of the unused `lo` argument of `Noise.generate`. -/
def generateLoDefault : ℚ := -1

/-- Default value of the unused `hi` argument of `Noise.generate`. -/
def generateHiDefault : ℚ := 1

/-- `Noise.generate(shape, lo=-1.0, hi=1.0)`: take the coloured branch when
`ntau > 0`, the white branch otherwise; `lo` and `hi` are accepted but
never read (noise.py lines 216-222). -/
def generate (sq : ℚ → ℚ) (g : ℕ → ℚ) (st : NoiseGen) (lo hi : ℚ) :
    ℚ × NoiseGen :=
  if 0 < st.ntau then colouredGen g st else whiteGen sq g st

/-- Noise state after `n` calls of `generate`. -/
def generateIterate (sq : ℚ → ℚ) (g : ℕ → ℚ) (st : NoiseGen) (lo hi : ℚ) :
    ℕ → NoiseGen
  | 0 => st
  | n + 1 => (generate sq g (generateIterate sq g st lo hi n) lo hi).2

/-- Sample returned by call number `n` (0-based) of `generate`. -/
def generateSample (sq : ℚ → ℚ) (g : ℕ → ℚ) (st : NoiseGen) (lo hi : ℚ)
    (n : ℕ) : ℚ :=
  (generate sq g (generateIterate sq g st lo hi n) lo hi).1

/-- A full run of the noise source: `RandomStream.configure` seeds the
underlying deterministic pseudo-random generator `prng` with `seed` and
rewinds it to its initial position, after which the `n`-th `generate` call
returns this sample.  `prng seed` is the seed-determined stream of normal
draws (numpy's `RandomState` is a deterministic function of its seed). -/
def noiseRun (sq : ℚ → ℚ) (prng : ℕ → ℕ → ℚ) (seed : ℕ) (st : NoiseGen)
    (lo hi : ℚ) (n : ℕ) : ℚ :=
  generateSample sq (prng seed) { st with pos := 0 } lo hi n

/-- C3: for a fixed seed and a fixed noise configuration, two runs that each
configure the random stream with that seed and then call `generate` the
same number of times produce identical noise sequences, sample for sample,
and hence identical values for any trajectory computed from the noise
stream. -/
theorem claim_C3_seed_determinism (sq : ℚ → ℚ) (prng : ℕ → ℕ → ℚ)
    (st : NoiseGen) (lo hi : ℚ) (seed1 seed2 : ℕ) (h : seed1 = seed2) :
    (∀ n, noiseRun sq prng seed1 st lo hi n = noiseRun sq prng seed2 st lo hi n)
    ∧ ∀ traj : (ℕ → ℚ) → ℕ → ℚ,
        traj (noiseRun sq prng seed1 st lo hi) =
          traj (noiseRun sq prng seed2 st lo hi) := by
  subst h
  exact ⟨fun _ => rfl, fun _ => rfl⟩

/-- Witness for C3: a concrete pseudo-random function, seed 42 in both
runs, and a concrete coloured configuration give equal third samples. -/
theorem claim_C3_seed_determinism_witness :
    42 = 42 ∧
    noiseRun id (fun s i => (s : ℚ) + i) 42 ⟨1, 1, 1, 1, 1, 1, 7⟩ (-1) 1 3 =
      noiseRun id (fun s i => (s : ℚ) + i) 42 ⟨1, 1, 1, 1, 1, 1, 7⟩ (-1) 1 3 :=
  ⟨rfl, (claim_C3_seed_determinism id (fun s i => (s : ℚ) + i)
    ⟨1, 1, 1, 1, 1, 1, 7⟩ (-1) 1 42 42 rfl).1 3⟩

/-- C4: branch selection in `generate` is decided solely by comparing
`ntau` with zero — the coloured branch is taken iff `ntau > 0` — and with
`ntau = 0` the call is exactly the white branch, returning
`sqrt(dt)` times the next normal draw. -/
theorem claim_C4_white_branch (sq : ℚ → ℚ) (g : ℕ → ℚ) (st : NoiseGen)
    (lo hi : ℚ) :
    generate sq g st lo hi =
      (if 0 < st.ntau then colouredGen g st else whiteGen sq g st)
    ∧ (st.ntau = 0 →
        generate sq g st lo hi = whiteGen sq g st ∧
        (generate sq g st lo hi).1 = sq st.dt * g st.pos) := by
  refine ⟨rfl, ?_⟩
  intro h0
  have hbranch : ¬ 0 < st.ntau := by rw [h0]; exact lt_irrefl 0
  constructor
  · simp [generate, hbranch]
  · simp [generate, hbranch, whiteGen]

/-- Witness for C4: a generator with `ntau = 0` and `dt = 9` returns
`sqrt(9)` times the next draw (with `sq = id`, draw 2 at position 0). -/
theorem claim_C4_white_branch_witness :
    (⟨0, 9, 0, 0, 0, 0, 0⟩ : NoiseGen).ntau = 0 ∧
    (generate id (fun k => (k : ℚ) + 2) ⟨0, 9, 0, 0, 0, 0, 0⟩ (-1) 1).1 = 18 := by
  constructor
  · rfl
  · have h := (claim_C4_white_branch id (fun k => (k : ℚ) + 2)
      ⟨0, 9, 0, 0, 0, 0, 0⟩ (-1) 1).2 rfl
    rw [h.2]
    norm_num

/-- C10: the optional `lo` and `hi` arguments of `generate` (defaults `-1.0`
and `1.0`) have no effect: from identical noise-generator and random-stream
states, calls with any two argument pairs — in particular with the
defaults — return identical results. -/
theorem claim_C10_lo_hi_unused (sq : ℚ → ℚ) (g : ℕ → ℚ) (st : NoiseGen)
    (lo1 hi1 lo2 hi2 : ℚ) :
    generate sq g st lo1 hi1 = generate sq g st lo2 hi2 ∧
    generate sq g st lo1 hi1 =
      generate sq g st generateLoDefault generateHiDefault :=
  ⟨rfl, rfl⟩

/-! ## Connectivity delays (connectivity.py) -/

/-- The rounding performed by `numpy.rint`: round to the nearest integer,
ties to even (the same rule as Python's built-in `round`). -/
def nprint (q : ℚ) : ℤ :=
  if q - (⌊q⌋ : ℚ) < 1 / 2 then ⌊q⌋
  else if 1 / 2 < q - (⌊q⌋ : ℚ) then ⌊q⌋ + 1
  else if Even ⌊q⌋ then ⌊q⌋ else ⌊q⌋ + 1

/-- Per-edge physical delay set by `Connectivity.configure`:
`delays = tract_lengths / speed` (connectivity.py line 406). -/
def configure_delays (tract_length speed : ℚ) : ℚ := tract_length / speed

/-- The conversion performed by `.astype(numpy.int32)`: the value is taken
into the signed 32-bit range by two's-complement wrapping modulo `2^32`. -/
def int32cast (z : ℤ) : ℤ := (z + 2 ^ 31) % 2 ^ 32 - 2 ^ 31

/-- Per-edge delay in integration steps set by `Connectivity.set_idelays`:
`idelays = rint(delays / dt).astype(numpy.int32)` (connectivity.py line
464) — the rounded value is cast down to a signed 32-bit integer. -/
def set_idelays (dt delay : ℚ) : ℤ := int32cast (nprint (delay / dt))

theorem nprint_nonneg (q : ℚ) (hq : 0 ≤ q) : 0 ≤ nprint q := by
  have hf : (0 : ℤ) ≤ ⌊q⌋ := Int.floor_nonneg.mpr hq
  unfold nprint
  split_ifs <;> omega

theorem int32cast_eq_of_range (z : ℤ) (h0 : 0 ≤ z) (h1 : z < 2 ^ 31) :
    int32cast z = z := by
  unfold int32cast
  rw [Int.emod_eq_of_lt (by omega) (by omega)]
  omega

/-- C6 counterexample: the claimed equality with the rounding and the
claimed non-negativity do not hold for every connectivity — at tract
length `2^31`, speed 1 and `dt = 1` the int32 cast inside `set_idelays`
wraps the rounded delay to `-2^31`, a negative value different from
`round(tract_length / speed / dt) = 2^31`. -/
theorem claim_C6_int32_wrap_refuted :
    set_idelays 1 (configure_delays (2 ^ 31) 1) < 0 ∧
    set_idelays 1 (configure_delays (2 ^ 31) 1) ≠
      nprint ((2 ^ 31 : ℚ) / 1 / 1) := by
  have hnp : nprint ((2 ^ 31 : ℚ) / 1 / 1) = 2 ^ 31 := by
    unfold nprint
    norm_num
  have hval : set_idelays 1 (configure_delays (2 ^ 31) 1) = -(2 ^ 31) := by
    unfold set_idelays configure_delays
    rw [hnp]
    unfold int32cast
    decide
  constructor
  · rw [hval]
    norm_num
  · rw [hval, hnp]
    norm_num

/-- C6 (amended): for non-negative tract length, positive speed and
positive `dt`, provided the rounded delay `rint(tract_length/speed/dt)`
fits in a signed 32-bit integer, the configured per-edge delay in steps
equals that rounding (`delays = tract_lengths / speed` at configure time,
then `idelays = rint(delays / dt).astype(int32)`), and it is a
non-negative integer. -/
theorem claim_C6_idelays_in_range (tract_length speed dt : ℚ)
    (h1 : 0 ≤ tract_length) (h2 : 0 < speed) (h3 : 0 < dt)
    (h4 : nprint (tract_length / speed / dt) < 2 ^ 31) :
    set_idelays dt (configure_delays tract_length speed) =
      nprint (tract_length / speed / dt) ∧
    0 ≤ set_idelays dt (configure_delays tract_length speed) := by
  have hq : 0 ≤ tract_length / speed / dt :=
    div_nonneg (div_nonneg h1 h2.le) h3.le
  have hnn : 0 ≤ nprint (tract_length / speed / dt) := nprint_nonneg _ hq
  have hc : set_idelays dt (configure_delays tract_length speed) =
      nprint (tract_length / speed / dt) := by
    unfold set_idelays configure_delays
    exact int32cast_eq_of_range _ hnn h4
  exact ⟨hc, hc ▸ hnn⟩

/-- Witness for C6: tract length 3, speed 2, `dt = 1` give the integer
delay `rint(3/2) = 2`, which fits in int32 and is non-negative. -/
theorem claim_C6_idelays_in_range_witness :
    0 ≤ (3 : ℚ) ∧ 0 < (2 : ℚ) ∧ 0 < (1 : ℚ) ∧
    nprint ((3 : ℚ) / 2 / 1) < 2 ^ 31 ∧
    (set_idelays 1 (configure_delays 3 2) = nprint ((3 : ℚ) / 2 / 1) ∧
      0 ≤ set_idelays 1 (configure_delays 3 2)) :=
  ⟨by norm_num, by norm_num, by norm_num, by unfold nprint; norm_num,
    claim_C6_idelays_in_range 3 2 1 (by norm_num) (by norm_num) (by norm_num)
      (by unfold nprint; norm_num)⟩

/-! ## RandomStream.set_state (noise.py) -/

/-- Kinds of exception the wrapped `numpy.random.RandomState.set_state` can
raise when handed a corrupt saved state. -/
inductive NpExc where
  | typeError : NpExc
  | valueError : NpExc

/-- Error outcomes of `RandomStream.set_state`: a `TypeError` from the
wrapped restore is caught, logged and re-raised as the bad-state error;
any other exception propagates unchanged. -/
inductive RestoreErr where
  | badState : RestoreErr
  | uncaught : NpExc → RestoreErr

/-- `RandomStream.set_state(value)` (noise.py lines 81-93): delegate to the
wrapped numpy restore; on success the stream state is replaced, on
`TypeError` an error is raised (so the call never completes normally with
a partially restored stream), and any other exception propagates.  The
argument is the outcome of the wrapped numpy call on the given value. -/
def set_state {τ : Type} (restore : Except NpExc τ) : Except RestoreErr τ :=
  match restore with
  | .ok s => .ok s
  | .error .typeError => .error .badState
  | .error e => .error (.uncaught e)

/-- C7: when the saved state is corrupt — the wrapped numpy restore rejects
it with an exception — `RandomStream.set_state` raises an error instead of
returning a stream: restoration fails fatally at configuration time. -/
theorem claim_C7_bad_state_raises {τ : Type} (restore : Except NpExc τ)
    (e : NpExc) (h : restore = .error e) :
    ∃ err, set_state restore = .error err := by
  subst h
  cases e
  · exact ⟨.badState, rfl⟩
  · exact ⟨.uncaught .valueError, rfl⟩

/-- Witness for C7: a restore that raises `TypeError` makes `set_state`
error out. -/
theorem claim_C7_bad_state_raises_witness :
    (Except.error NpExc.typeError : Except NpExc ℕ) =
      Except.error NpExc.typeError ∧
    ∃ err, set_state (Except.error NpExc.typeError : Except NpExc ℕ) =
      Except.error err :=
  ⟨rfl, claim_C7_bad_state_raises (Except.error NpExc.typeError)
    NpExc.typeError rfl⟩

/-! ## Noise scaling for diffusion (Additive.gfun / Multiplicative.gfun) -/

/-- `Additive.gfun(state_variables)` (noise.py lines 254-263): the diffusion
coefficient is `sqrt(2 * nsig)`, computed without reading the state; `sq`
stands for numpy's square-root function and `σ` is the type of state
arrays. -/
def additive_gfun {σ : Type} (sq : ℚ → ℚ) (nsig : ℚ) (state : σ) : ℚ :=
  sq (2 * nsig)

/-- C8: `Additive.gfun` returns `sqrt(2 * nsig)` — a constant determined by
the dispersion `nsig` alone, identical for any two states passed in. -/
theorem claim_C8_additive_gfun_constant {σ : Type} (sq : ℚ → ℚ) (nsig : ℚ)
    (s : σ) :
    additive_gfun sq nsig s = sq (2 * nsig) ∧
    ∀ s1 s2 : σ, additive_gfun sq nsig s1 = additive_gfun sq nsig s2 :=
  ⟨rfl, fun _ _ => rfl⟩

/-- The `Linear` equation of equations.py: `numexpr` evaluation of
`"a * var + b"` with the parameter dictionary `{a, b}`. -/
def linear_eval (a b v : ℚ) : ℚ := a * v + b

/-- Default parameter `a = 1.0` of the `Linear` equation. -/
def linearDefaultA : ℚ := 1

/-- Default parameter `b = 0.0` of the `Linear` equation. -/
def linearDefaultB : ℚ := 0

/-- `Multiplicative.gfun(state_variables)` (noise.py lines 298-309): the
diffusion-coefficient equation is evaluated elementwise on the state
(`self.b.pattern = state_variables`) and the result is
`sqrt(2 * nsig) * b(state)`; states are arrays indexed by `ℕ`. -/
def multiplicative_gfun (sq : ℚ → ℚ) (nsig a b : ℚ) (state : ℕ → ℚ) :
    ℕ → ℚ :=
  fun i => sq (2 * nsig) * linear_eval a b (state i)

/-- C9: `Multiplicative.gfun` returns `sqrt(2 * nsig) * b(state)` with `b`
evaluated elementwise on the state, and with the default `Linear`
parameters `a = 1.0`, `b = 0.0` it reduces to `sqrt(2 * nsig) * state`. -/
theorem claim_C9_multiplicative_gfun (sq : ℚ → ℚ) (nsig : ℚ) (state : ℕ → ℚ) :
    (∀ a b, multiplicative_gfun sq nsig a b state =
      fun i => sq (2 * nsig) * linear_eval a b (state i)) ∧
    multiplicative_gfun sq nsig linearDefaultA linearDefaultB state =
      fun i => sq (2 * nsig) * state i := by
  refine ⟨fun _ _ => rfl, ?_⟩
  funext i
  simp [multiplicative_gfun, linear_eval, linearDefaultA, linearDefaultB]

end TVB
